import Mathlib

/-!
# Verification of the element-call client source

A shallow embedding, in Lean 4, of the components of the element-call
client that the specification's claims concern:

* `src/UrlParams.ts` — URL launch-parameter parsing (`getUrlParams`),
  room-identifier resolution (`getRoomIdentifierFromUrl`) and the pure
  fragment-query rewriting helper (`editFragmentQuery`);
* `src/room/GroupCallView.tsx` — the call-view orchestrator's render
  dispatch and its `onLeave` effect sequence;
* `src/room/useLoadGroupCall.ts` — the session load hook
  (`fetchOrCreateRoom` and the three-state status machine);
* `src/room/useActiveFocus.ts` — the active-focus hook.

JavaScript strings are represented as `List Char` (`JSStr`), which keeps
the string algorithms directly computable and inductively provable.
Browser built-ins (`URLSearchParams`, `String.prototype` methods) and
external SDK helpers that the source calls but whose code is outside the
reviewed set are modelled explicitly below, each with a comment saying
what it models.
-/

/-- JavaScript strings, embedded as lists of characters. -/
abbrev JSStr := List Char

/-- Models JS `String.prototype.split` with a single-character separator:
splits on every occurrence, always yielding at least one (possibly empty)
segment. -/
def splitOnChar (c : Char) : JSStr → List JSStr
  | [] => [[]]
  | x :: xs =>
    if x = c then [] :: splitOnChar c xs
    else
      match splitOnChar c xs with
      | [] => [[x]]
      | y :: ys => (x :: y) :: ys

/-- `splitOnChar` never returns the empty list (JS `split` always yields at
least one segment). -/
theorem splitOnChar_ne_nil (c : Char) (s : JSStr) : splitOnChar c s ≠ [] := by
  cases s with
  | nil => simp [splitOnChar]
  | cons x xs =>
    simp only [splitOnChar]
    split
    · simp
    · split <;> simp

/-- Index of the first occurrence of a character, or `none`. -/
def jsIndexOfAux (c : Char) : JSStr → Option Nat
  | [] => none
  | x :: xs => if x = c then some 0 else (jsIndexOfAux c xs).map (· + 1)

/-- Models JS `String.prototype.indexOf` for a single-character needle:
the index of the first occurrence, or `-1` when absent. -/
def jsIndexOf (s : JSStr) (c : Char) : Int :=
  match jsIndexOfAux c s with
  | none => -1
  | some i => (i : Int)

/-- Models JS `String.prototype.substring(start, end)`: both indices are
clamped into `[0, length]` and swapped when out of order. -/
def jsSubstring (s : JSStr) (a b : Int) : JSStr :=
  let n : Int := s.length
  let a' := min (max a 0) n
  let b' := min (max b 0) n
  let lo := min a' b'
  let hi := max a' b'
  (s.take hi.toNat).drop lo.toNat

/-- Models JS `String.prototype.substring(start)` (one-argument form). -/
def jsSubstringFrom (s : JSStr) (a : Int) : JSStr :=
  jsSubstring s a s.length

/-- Models JS `String.prototype.includes`: the needle occurs as a contiguous
substring (at any position, the end included, so the empty needle is always
found). -/
def jsIncludes (s sub : JSStr) : Bool :=
  sub.isPrefixOf s ||
    match s with
    | [] => false
    | _ :: xs => jsIncludes xs sub

/-- Models JS `String.prototype.startsWith`. -/
def jsStartsWith (s sub : JSStr) : Bool :=
  sub.isPrefixOf s

/-- Models JS `String.prototype.toLowerCase` (ASCII-adequate). -/
def jsToLower (s : JSStr) : JSStr :=
  s.map Char.toLower

/-- Hex digit value of a character (code points compared numerically:
48–57 are `0`–`9`, 65–70 are `A`–`F`, 97–102 are `a`–`f`), `none` for
non-hex characters. -/
def hexVal (c : Char) : Option Nat :=
  let n := c.toNat
  if 48 ≤ n ∧ n ≤ 57 then some (n - 48)
  else if 65 ≤ n ∧ n ≤ 70 then some (n - 55)
  else if 97 ≤ n ∧ n ≤ 102 then some (n - 87)
  else none

/-- Models the `application/x-www-form-urlencoded` percent-decoding done by
the `URLSearchParams` constructor: `+` becomes a space and `%XX` becomes the
character with that code (multi-byte UTF-8 recombination is not modelled; no
claim depends on non-ASCII decoding). A malformed `%` sequence is kept
verbatim, as in the browser. -/
def percentDecode : JSStr → JSStr
  | [] => []
  | '+' :: rest => ' ' :: percentDecode rest
  | '%' :: a :: b :: rest =>
    match hexVal a, hexVal b with
    | some ha, some hb => Char.ofNat (16 * ha + hb) :: percentDecode rest
    | _, _ => '%' :: percentDecode (a :: b :: rest)
  | c :: rest => c :: percentDecode rest

/-- The characters the `application/x-www-form-urlencoded` serializer leaves
unescaped: ASCII alphanumerics and `*`, `-`, `.`, `_`. -/
def isFormSafe (c : Char) : Bool :=
  ('A' ≤ c && c ≤ 'Z') || ('a' ≤ c && c ≤ 'z') || ('0' ≤ c && c ≤ '9') ||
    c = '*' || c = '-' || c = '.' || c = '_'

/-- Upper-case hex digit for a value; out-of-range values fall back to `'0'`
(never reached on byte input). -/
def hexDigitChar (n : Nat) : Char :=
  "0123456789ABCDEF".toList.getD n '0'

/-- UTF-8 bytes of a character (standard 1–4 byte encoding). -/
def utf8Bytes (c : Char) : List Nat :=
  let n := c.toNat
  if n < 0x80 then [n]
  else if n < 0x800 then [0xC0 + n / 0x40, 0x80 + n % 0x40]
  else if n < 0x10000 then
    [0xE0 + n / 0x1000, 0x80 + (n / 0x40) % 0x40, 0x80 + n % 0x40]
  else
    [0xF0 + n / 0x40000, 0x80 + (n / 0x1000) % 0x40,
      0x80 + (n / 0x40) % 0x40, 0x80 + n % 0x40]

/-- A percent-escaped byte, `%XX`. -/
def percentByte (b : Nat) : JSStr :=
  ['%', hexDigitChar (b / 16 % 16), hexDigitChar (b % 16)]

/-- Models the `application/x-www-form-urlencoded` escaping of one character,
as used by `URLSearchParams.toString`. -/
def urlencodeChar (c : Char) : JSStr :=
  if isFormSafe c then [c]
  else if c = ' ' then ['+']
  else (utf8Bytes c).flatMap percentByte

/-- `application/x-www-form-urlencoded` escaping of a string. -/
def urlencode (s : JSStr) : JSStr :=
  s.flatMap urlencodeChar

/-- Models the browser's `URLSearchParams`: an ordered multimap of
decoded name/value pairs. -/
structure URLSearchParams where
  pairs : List (JSStr × JSStr)
deriving DecidableEq, Repr

/-- Models the `URLSearchParams` constructor on a string: strip one leading
`?`, split on `&` dropping empty segments, split each segment at its first
`=` (a segment without `=` becomes a name with empty value), and
percent-decode names and values. -/
def URLSearchParams.parse (s : JSStr) : URLSearchParams :=
  let s' := if s.head? = some '?' then s.tail else s
  let segs := (splitOnChar '&' s').filter (fun seg => seg ≠ [])
  ⟨segs.map (fun seg =>
    let k := seg.takeWhile (fun c => c ≠ '=')
    let rest := seg.dropWhile (fun c => c ≠ '=')
    match rest with
    | [] => (percentDecode k, [])
    | _ :: v => (percentDecode k, percentDecode v))⟩

/-- Models `URLSearchParams.prototype.has`. -/
def URLSearchParams.hasName (p : URLSearchParams) (n : JSStr) : Bool :=
  p.pairs.any (fun kv => kv.1 == n)

/-- Models `URLSearchParams.prototype.get`: value of the first pair with the
given name, or `none`. -/
def URLSearchParams.get (p : URLSearchParams) (n : JSStr) : Option JSStr :=
  (p.pairs.find? (fun kv => kv.1 == n)).map (fun kv => kv.2)

/-- Models `URLSearchParams.prototype.getAll`. -/
def URLSearchParams.getAll (p : URLSearchParams) (n : JSStr) : List JSStr :=
  (p.pairs.filter (fun kv => kv.1 == n)).map (fun kv => kv.2)

/-- Joins serialized pairs with `&`. -/
def joinAmp : List JSStr → JSStr
  | [] => []
  | [x] => x
  | x :: y :: ys => x ++ '&' :: joinAmp (y :: ys)

/-- Models `URLSearchParams.prototype.toString`: each pair is serialized as
`name=value` with form-urlencoded escaping, pairs joined by `&`. -/
def URLSearchParams.serialize (p : URLSearchParams) : JSStr :=
  joinAmp (p.pairs.map (fun kv => urlencode kv.1 ++ '=' :: urlencode kv.2))

/-- From `src/UrlParams.ts` (`editFragmentQuery`): parses the hash's embedded
query (the part from the hash's own first `?`), applies the caller's edit,
and re-serializes it after `hash.substring(0, fragmentQueryStart)` and a `?`.
Note that when the hash has no `?`, `fragmentQueryStart` is `-1` and JS
`substring(0, -1)` clamps to the empty string. -/
def editFragmentQuery (hash : JSStr)
    (edit : URLSearchParams → URLSearchParams) : JSStr :=
  let fragmentQueryStart := jsIndexOf hash '?'
  let fragmentParams := edit (URLSearchParams.parse
    (if fragmentQueryStart = -1 then [] else jsSubstringFrom hash fragmentQueryStart))
  jsSubstring hash 0 fragmentQueryStart ++ '?' :: fragmentParams.serialize

/-- From `src/UrlParams.ts` (`class ParamParser`): the query-string parameters
and the hash's embedded-query parameters. -/
structure ParamParser where
  fragmentParams : URLSearchParams
  queryParams : URLSearchParams
deriving Repr

/-- The `ParamParser` constructor: the query string is parsed whole; the
fragment parameters come from the hash's portion starting at its first `?`
(empty when the hash has no `?`). -/
def ParamParser.make (search hash : JSStr) : ParamParser :=
  let fragmentQueryStart := jsIndexOf hash '?'
  { queryParams := URLSearchParams.parse search
    fragmentParams := URLSearchParams.parse
      (if fragmentQueryStart = -1 then [] else jsSubstringFrom hash fragmentQueryStart) }

/-- `ParamParser.hasParam`: present in either the fragment or the query
parameters (the deprecation warning the source logs is not an observable
value and is not modelled). -/
def ParamParser.hasParam (p : ParamParser) (n : JSStr) : Bool :=
  p.fragmentParams.hasName n || p.queryParams.hasName n

/-- `ParamParser.getParam`: fragment value preferred, query value as
fallback. -/
def ParamParser.getParam (p : ParamParser) (n : JSStr) : Option JSStr :=
  match p.fragmentParams.get n with
  | some v => some v
  | none => p.queryParams.get n

/-- `ParamParser.getAllParams`: fragment occurrences first, then query
occurrences. -/
def ParamParser.getAllParams (p : ParamParser) (n : JSStr) : List JSStr :=
  p.fragmentParams.getAll n ++ p.queryParams.getAll n

/-- Models JS `parseFloat` followed by the source's `Number.isNaN` guard,
mapping an unparsable value to `none`. Decimal notation only (optional sign,
digits, optional fraction); exponents and leading whitespace are not
modelled, and the numeric value is carried as a rational. No claim depends
on `fontScale`. -/
def jsParseFloatOpt (s : JSStr) : Option ℚ :=
  let (sign, s₁) : ℚ × JSStr :=
    match s with
    | '-' :: rest => (-1, rest)
    | '+' :: rest => (1, rest)
    | _ => (1, s)
  let intPart := s₁.takeWhile Char.isDigit
  let rest := s₁.dropWhile Char.isDigit
  let fracPart :=
    match rest with
    | '.' :: r => r.takeWhile Char.isDigit
    | _ => []
  if intPart = [] ∧ fracPart = [] then none
  else
    let iv : ℚ := (intPart.foldl (fun acc c => 10 * acc + (c.toNat - '0'.toNat)) 0 : ℕ)
    let fv : ℚ := (fracPart.foldl (fun acc c => 10 * acc + (c.toNat - '0'.toNat)) 0 : ℕ)
    some (sign * (iv + fv / (10 : ℚ) ^ fracPart.length))

/-- From `src/UrlParams.ts` (`interface UrlParams`): the launch parameters. -/
structure UrlParams where
  roomId : Option JSStr
  password : Option JSStr
  isEmbedded : Bool
  preload : Bool
  hideHeader : Bool
  hideScreensharing : Bool
  e2eEnabled : Bool
  userId : Option JSStr
  displayName : Option JSStr
  deviceId : Option JSStr
  baseUrl : Option JSStr
  lang : Option JSStr
  fonts : List JSStr
  fontScale : Option ℚ
  analyticsID : Option JSStr
  allowIceFallback : Bool
deriving Repr

/-- From `src/UrlParams.ts` (`getUrlParams`): resolves every launch
parameter through a `ParamParser` over the search string and hash. -/
def getUrlParams (search hash : JSStr) : UrlParams :=
  let parser := ParamParser.make search hash
  let fontScale := jsParseFloatOpt ((parser.getParam "fontScale".toList).getD [])
  { roomId := parser.getParam "roomId".toList
    password := parser.getParam "password".toList
    isEmbedded := parser.hasParam "embed".toList
    preload := parser.hasParam "preload".toList
    hideHeader := parser.hasParam "hideHeader".toList
    hideScreensharing := parser.hasParam "hideScreensharing".toList
    e2eEnabled := parser.getParam "enableE2e".toList != some "false".toList
    userId := parser.getParam "userId".toList
    displayName := parser.getParam "displayName".toList
    deviceId := parser.getParam "deviceId".toList
    baseUrl := parser.getParam "baseUrl".toList
    lang := parser.getParam "lang".toList
    fonts := parser.getAllParams "font".toList
    fontScale := fontScale
    analyticsID := parser.getParam "analyticsID".toList
    allowIceFallback := parser.hasParam "allowIceFallback".toList }

/-- From `src/UrlParams.ts` (`interface RoomIdentifier`). -/
structure RoomIdentifier where
  roomAlias : Option JSStr
  roomId : Option JSStr
  viaServers : List JSStr
deriving Repr

/-- From `src/UrlParams.ts` (`getRoomIdentifierFromUrl`). The statically
configured default server name (`Config.defaultServerName()` in the source)
is passed as the explicit argument `defaultServerName`. When the hash is
empty or is used as a query string (starts with `#?`), the alias candidate
is the last `/`-separated path segment; otherwise the whole hash is the
candidate (deprecated form). The candidate gets its leading run of `#`
collapsed to exactly one, and `:` plus the default server name appended when
it contains no `:`. A supplied `roomId` parameter survives only when it
starts with `!` (the source's second validation branch tests
`!roomId.includes("")`, which is never true since every string includes the
empty string, so it never discards anything). -/
def getRoomIdentifierFromUrl (defaultServerName : JSStr)
    (pathname search hash : JSStr) : RoomIdentifier :=
  let baseRoomString : Option JSStr :=
    if hash = [] ∨ jsStartsWith hash "#?".toList = true then
      (splitOnChar '/' pathname).getLast?
    else
      some hash
  let roomAlias : Option JSStr :=
    match baseRoomString with
    | none => none
    | some base =>
      let a := '#' :: base.dropWhile (fun c => c = '#')
      if jsIncludes a [':'] then some a
      else some (a ++ ':' :: defaultServerName)
  let parser := ParamParser.make search hash
  let roomId0 := parser.getParam "roomId".toList
  let roomId :=
    match roomId0 with
    | none => none
    | some r =>
      if ¬ jsStartsWith r ['!'] then none
      else if ¬ jsIncludes r [] then none
      else some r
  { roomAlias := roomAlias
    roomId := roomId
    viaServers := parser.getAllParams "viaServers".toList }

/-! ## `src/room/GroupCallView.tsx` — the call-view orchestrator -/

/-- An opaque-to-us JS `Error` value: its message. -/
structure JSError where
  message : JSStr
deriving DecidableEq, Repr

/-- The inputs the `GroupCallView` component's render dispatch reads: props
(`isPasswordlessUser`, `confineToRoom`, `preload`), hook results
(`useEnableE2EE`, `useIsRoomE2EE`, `useManageRoomSharedKey`,
`useMatrixRTCSessionJoinState`, the `left`/`leaveError` local state,
`PosthogAnalytics.instance.isEnabled()`), the LiveKit `isE2EESupported()`
probe, and whether the global `widget` handle is non-null. -/
structure GroupCallViewState where
  e2eeEnabled : Bool
  isRoomE2EE : Bool
  e2eeSharedKey : Option JSStr
  isE2EESupported : Bool
  isJoined : Bool
  left : Bool
  leaveError : Option JSError
  preload : Bool
  isPasswordlessUser : Bool
  posthogEnabled : Bool
  widgetPresent : Bool
deriving Repr

/-- The distinct renderings `GroupCallView` can return. The two `null`
returns (left-as-regular-user and preload) are kept distinct so that the
dispatch order stays observable. -/
inductive GroupCallRender
  | errorNoE2EEKey
  | incompatibleBrowser
  | errorE2EENotEnabled
  | activeCall
  | callEndedView
  | nullAfterLeft
  | nullPreload
  | lobbyView
deriving DecidableEq, Repr

/-- From `src/room/GroupCallView.tsx` (the component's return statements,
lines 300–400): the render dispatch, in source order. -/
def GroupCallView.render (s : GroupCallViewState) : GroupCallRender :=
  if s.e2eeEnabled && s.isRoomE2EE && s.e2eeSharedKey.isNone then
    .errorNoE2EEKey
  else if !s.isE2EESupported && s.isRoomE2EE then
    .incompatibleBrowser
  else if !s.e2eeEnabled && s.isRoomE2EE then
    .errorE2EENotEnabled
  else if s.isJoined then
    .activeCall
  else if s.left then
    if s.isPasswordlessUser || (s.posthogEnabled && !s.widgetPresent)
        || s.leaveError.isSome then
      .callEndedView
    else
      .nullAfterLeft
  else if s.preload then
    .nullPreload
  else
    .lobbyView

/-- The externally observable effects issued by `GroupCallView`'s `onLeave`
callback, in order. -/
inductive LeaveEffect
  | setLeaveError (e : Option JSError)
  | setLeft (b : Bool)
  | trackCallEnded (roomId : JSStr) (participantCount : Nat) (sendInstantly : Bool)
  | leaveRTCSession
  | delayMs (n : Nat)
  | setAlwaysOnScreen (b : Bool)
  | analyticsLogout
  | sendHangup
  | historyPush (path : JSStr)
deriving DecidableEq, Repr

/-- The ambient values `onLeave` closes over. -/
structure OnLeaveEnv where
  roomId : JSStr
  membershipCount : Nat
  widgetPresent : Bool
  isPasswordlessUser : Bool
  confineToRoom : Bool
  posthogEnabled : Bool
deriving Repr

/-- From `src/room/GroupCallView.tsx` (`onLeave`, lines 214–247): the
ordered list of effects one invocation issues. `sendInstantly` is
`!!widget`; in widget mode a 10 ms `setTimeout` delay is awaited between
leaving the RTC session and clearing the always-on-screen flag; the final
`history.push("/")` happens exactly when the user is not passwordless, the
app is not confined to the room, and Posthog analytics is not enabled. -/
def GroupCallView.onLeave (env : OnLeaveEnv) (leaveError : Option JSError) :
    List LeaveEffect :=
  [.setLeaveError leaveError, .setLeft true,
   .trackCallEnded env.roomId env.membershipCount env.widgetPresent,
   .leaveRTCSession]
  ++ (if env.widgetPresent then
        [.delayMs 10, .setAlwaysOnScreen false, .analyticsLogout, .sendHangup]
      else [])
  ++ (if !env.isPasswordlessUser && !env.confineToRoom && !env.posthogEnabled then
        [.historyPush "/".toList]
      else [])

/-! ## `src/room/useLoadGroupCall.ts` — the session load hook -/

/-- The shape of the error thrown by `client.joinRoom` /
`waitUntilRoomReadyForGroupCalls`, as far as the hook inspects it:
`errcode` and `message`. -/
structure JoinError where
  errcode : Option JSStr
  message : Option JSStr
deriving DecidableEq, Repr

/-- Outcome of the `try` block of `fetchOrCreateRoom` (the join attempt up
to and including the readiness wait), supplied by the environment. -/
inductive JoinOutcome
  | success (roomId : JSStr)
  | failure (e : JoinError)
deriving DecidableEq, Repr

/-- One run of the load effect's environment: what the external client
answers. `isLocalRoomId` is the result of the external
`isLocalRoomId(roomIdOrAlias, client)` helper; `createdRoomId` is the room
id `createRoom` returns; `rand` is the randomness source consumed by the
SDK's `randomString`. -/
structure LoadEnv where
  joinOutcome : JoinOutcome
  isLocalRoomId : Bool
  e2eeEnabled : Bool
  createdRoomId : JSStr
  rand : Nat → Char

/-- Modelled from the spec: the SDK's `randomString(n)` produces an
`n`-character random string; the randomness source is explicit. -/
def randomString (rand : Nat → Char) (n : Nat) : JSStr :=
  (List.range n).map rand

/-- The externally observable events of one run of the load effect. -/
inductive LoadEvent
  | joinRoomCalled (idOrAlias : JSStr)
  | createRoomCalled (name : JSStr)
  | localStorageWrite (key value : JSStr)
  | waitReadyCalled (roomId : JSStr)
  | reportLoaded (roomId : JSStr)
  | reportFailed (e : JoinError)
deriving DecidableEq, Repr

/-- From `src/room/useLoadGroupCall.ts` (lines 87–99): the `catch` guard —
the identifier is locally addressable and the error is a qualifying
not-found (`errcode === "M_NOT_FOUND"`, or a message containing
`"Failed to fetch alias"`). -/
def qualifiesForCreate (isLocal : Bool) (e : JoinError) : Bool :=
  isLocal &&
    (e.errcode == some "M_NOT_FOUND".toList ||
      (match e.message with
       | some m => jsIncludes m "Failed to fetch alias".toList
       | none => false))

/-- From `src/room/useLoadGroupCall.ts` (`fetchOrCreateRoom`, lines 68–122):
the event trace of one invocation together with its result (the room id, or
the propagated error). The external `roomNameFromRoomId` and
`getRoomSharedKeyLocalStorageKey` helpers (from `matrix-utils` and
`e2ee/sharedKeyManagement`, outside the reviewed source) are passed as
function parameters `nameOf` and `keyOf`. -/
def fetchOrCreateRoom (nameOf keyOf : JSStr → JSStr) (env : LoadEnv)
    (roomIdOrAlias : JSStr) : List LoadEvent × Except JoinError JSStr :=
  let sanitisedIdOrAlias :=
    if roomIdOrAlias.head? = some '#' then jsToLower roomIdOrAlias
    else roomIdOrAlias
  match env.joinOutcome with
  | .success roomId =>
    ([.joinRoomCalled sanitisedIdOrAlias, .waitReadyCalled roomId], .ok roomId)
  | .failure e =>
    if qualifiesForCreate env.isLocalRoomId e then
      ([.joinRoomCalled sanitisedIdOrAlias,
        .createRoomCalled (nameOf roomIdOrAlias)]
       ++ (if env.e2eeEnabled then
             [.localStorageWrite (keyOf env.createdRoomId)
               (randomString env.rand 32)]
           else [])
       ++ [.waitReadyCalled env.createdRoomId],
       .ok env.createdRoomId)
    else
      ([.joinRoomCalled sanitisedIdOrAlias], .error e)

/-- From `src/room/useLoadGroupCall.ts` (`GroupCallStatus`): the hook's
three-state status. The session handle is represented by the room id the
RTC session was obtained for. -/
inductive GroupCallStatus
  | loading
  | loaded (rtcSessionRoomId : JSStr)
  | failed (error : JoinError)
deriving DecidableEq, Repr

/-- From `src/room/useLoadGroupCall.ts` (lines 150–153): one run of the
load effect ends in exactly one `setState`, `loaded` on success and `failed`
on error. -/
def loadEffectResult (nameOf keyOf : JSStr → JSStr) (env : LoadEnv)
    (roomIdOrAlias : JSStr) : GroupCallStatus :=
  match (fetchOrCreateRoom nameOf keyOf env roomIdOrAlias).2 with
  | .ok roomId => .loaded roomId
  | .error e => .failed e

/-- The full event trace of one run of the load effect, including the final
status report. -/
def loadEffectTrace (nameOf keyOf : JSStr → JSStr) (env : LoadEnv)
    (roomIdOrAlias : JSStr) : List LoadEvent :=
  match fetchOrCreateRoom nameOf keyOf env roomIdOrAlias with
  | (tr, .ok roomId) => tr ++ [.reportLoaded roomId]
  | (tr, .error e) => tr ++ [.reportFailed e]

/-- From `src/room/useLoadGroupCall.ts` (`useLoadGroupCall`): the hook's
status over its lifetime. The state starts at `loading` on mount; the load
effect runs once per dependency tuple (client, identifier, via servers,
PTT flag, encryption setting) — once on mount and again on every change —
and each completed run overwrites the status with that run's terminal
result. `runs` lists the identifier and environment of each completed
effect run, oldest first. -/
def useLoadGroupCallStatus (nameOf keyOf : JSStr → JSStr)
    (runs : List (JSStr × LoadEnv)) : GroupCallStatus :=
  runs.foldl (fun _ r => loadEffectResult nameOf keyOf r.2 r.1) .loading

/-! ## `src/room/useActiveFocus.ts` — the active-focus hook -/

/-- From `src/livekit/LivekitFocus` (outside the reviewed source), modelled
from the spec: the SFU endpoint descriptor a call session converges on. -/
structure LivekitFocus where
  focusType : JSStr
  livekitServiceUrl : JSStr
  livekitAlias : JSStr
deriving DecidableEq, Repr

/-- A call-session membership record, as far as the hook reads it: its
sender, device and advertised foci. -/
structure SessionMembership where
  sender : JSStr
  deviceId : JSStr
  activeFoci : List LivekitFocus
deriving DecidableEq, Repr

/-- The slice of `MatrixRTCSession` the hook consumes:
`getOldestMembership()`. -/
structure RTCSessionSnapshot where
  oldestMembership : Option SessionMembership
deriving DecidableEq, Repr

/-- Models the SDK's `deepCompare` on focus descriptors: deep structural
comparison, field by field. -/
def LivekitFocus.deepEq (a b : LivekitFocus) : Bool :=
  a.focusType == b.focusType && a.livekitServiceUrl == b.livekitServiceUrl &&
    a.livekitAlias == b.livekitAlias

/-- `deepCompare` lifted to optional foci (both absent counts as equal, as
JS `deepCompare(undefined, undefined)` does). -/
def deepCompareFocus : Option LivekitFocus → Option LivekitFocus → Bool
  | none, none => true
  | some a, some b => a.deepEq b
  | _, _ => false

/-- From `src/room/useActiveFocus.ts` (`getActiveFocus`, lines 27–41): the
first advertised focus of the session's oldest membership, when any. -/
def getActiveFocus (s : RTCSessionSnapshot) : Option LivekitFocus :=
  s.oldestMembership.bind (fun m => m.activeFoci.head?)

/-- From `src/room/useActiveFocus.ts` (`onMembershipsChanged`, lines
55–61): given the currently published focus and the session snapshot at
notification time, returns the focus value published afterwards together
with whether a `setActiveFocus` state update was issued. -/
def onMembershipsChanged (activeFocus : Option LivekitFocus)
    (s : RTCSessionSnapshot) : Option LivekitFocus × Bool :=
  let newActiveFocus := getActiveFocus s
  if deepCompareFocus activeFocus newActiveFocus then
    (activeFocus, false)
  else
    (newActiveFocus, true)

/-! ## Helper lemmas about the string and parameter models -/

/-- Unfolding equation for `jsIncludes` on a non-empty haystack. -/
theorem jsIncludes_cons (x : Char) (xs sub : JSStr) :
    jsIncludes (x :: xs) sub = (sub.isPrefixOf (x :: xs) || jsIncludes xs sub) :=
  rfl

/-- `includes` with a one-character needle is membership. -/
theorem jsIncludes_singleton (c : Char) (s : JSStr) :
    jsIncludes s [c] = true ↔ c ∈ s := by
  induction s with
  | nil => simp [jsIncludes, List.isPrefixOf]
  | cons x xs ih =>
    rw [jsIncludes_cons]
    simp only [List.isPrefixOf, Bool.or_eq_true, ih, List.mem_cons,
      Bool.and_eq_true, beq_iff_eq]
    simp

/-- Membership survives the leading-`#` collapse: `:` is in the normalized
alias iff it is in the raw candidate. -/
theorem mem_normalized_alias (cand : JSStr) :
    (':' ∈ '#' :: cand.dropWhile (fun c => c = '#')) ↔ ':' ∈ cand := by
  constructor
  · intro h
    rcases List.mem_cons.mp h with h | h
    · cases h
    · have hsplit := List.takeWhile_append_dropWhile (p := fun c => decide (c = '#')) (l := cand)
      rw [← hsplit]
      exact List.mem_append.mpr (Or.inr h)
  · intro h
    have hsplit := List.takeWhile_append_dropWhile (p := fun c => decide (c = '#')) (l := cand)
    rw [← hsplit] at h
    rcases List.mem_append.mp h with h | h
    · have hp := List.mem_takeWhile_imp h
      simp at hp
    · exact List.mem_cons.mpr (Or.inr h)

/-- `jsIndexOfAux` finding nothing means the character is absent. -/
theorem jsIndexOfAux_eq_none (c : Char) (s : JSStr) :
    jsIndexOfAux c s = none ↔ c ∉ s := by
  induction s with
  | nil => simp [jsIndexOfAux]
  | cons x xs ih =>
    rw [jsIndexOfAux]
    by_cases hx : x = c
    · simp [hx]
    · simp [hx, Option.map_eq_none, ih]
      exact fun _ hcx => hx hcx.symm

/-- `jsIndexOfAux` finding an index means: the part before it is the
`takeWhile` of non-occurrences, the part from it is the matching
`dropWhile`, and the index is within the string. -/
theorem jsIndexOfAux_eq_some (c : Char) (s : JSStr) (i : Nat)
    (h : jsIndexOfAux c s = some i) :
    i ≤ s.length ∧ s.take i = s.takeWhile (fun x => x ≠ c)
      ∧ s.drop i = s.dropWhile (fun x => x ≠ c) := by
  induction s generalizing i with
  | nil => simp [jsIndexOfAux] at h
  | cons x xs ih =>
    rw [jsIndexOfAux] at h
    by_cases hx : x = c
    · rw [if_pos hx] at h
      cases h
      subst hx
      simp [List.takeWhile, List.dropWhile]
    · rw [if_neg hx] at h
      rcases Option.map_eq_some.mp h with ⟨j, hj, hji⟩
      rcases ih j hj with ⟨h1, h2, h3⟩
      subst hji
      refine ⟨by simpa using Nat.succ_le_succ h1, ?_, ?_⟩
      · rw [List.take_succ_cons, h2, List.takeWhile_cons, if_pos (by simp [hx])]
      · rw [List.drop_succ_cons, h3, List.dropWhile_cons, if_pos (by simp [hx])]

/-- JS `substring(0, -1)` clamps to the empty string. -/
theorem jsSubstring_zero_negOne (s : JSStr) : jsSubstring s 0 (-1) = [] := by
  have h0 : (0 : Int) ≤ (s.length : Int) := by positivity
  simp [jsSubstring, h0]

/-- JS `substring(0, i)` with `0 ≤ i ≤ length` is `take i`. -/
theorem jsSubstring_zero_of_le (s : JSStr) (i : Nat) (h : i ≤ s.length) :
    jsSubstring s 0 (i : Int) = s.take i := by
  have h0 : (0 : Int) ≤ (s.length : Int) := by positivity
  have hi : (i : Int) ≤ (s.length : Int) := by exact_mod_cast h
  have hmax : max (i : Int) 0 = (i : Int) := max_eq_left (by positivity)
  simp [jsSubstring, h0, hmax, min_eq_left hi]

/-- JS one-argument `substring(i)` with `i ≤ length` is `drop i`. -/
theorem jsSubstringFrom_of_le (s : JSStr) (i : Nat) (h : i ≤ s.length) :
    jsSubstringFrom s (i : Int) = s.drop i := by
  have h0 : (0 : Int) ≤ (s.length : Int) := by positivity
  have hi : (i : Int) ≤ (s.length : Int) := by exact_mod_cast h
  have hmax : max (i : Int) 0 = (i : Int) := max_eq_left (by positivity)
  have hmin : min (i : Int) (s.length : Int) = (i : Int) := min_eq_left hi
  simp [jsSubstringFrom, jsSubstring, hmax, hmin, h0, min_eq_right hi,
    max_eq_right hi, List.drop_eq_nil_of_le, List.take_length]

/-- `takeWhile` over a list of keepers followed by a breaker returns exactly
the keepers. -/
theorem takeWhile_keepers_append (p : Char → Bool) (l₁ l₂ : JSStr) (b : Char)
    (hall : ∀ x ∈ l₁, p x = true) (hb : p b = false) :
    (l₁ ++ b :: l₂).takeWhile p = l₁ := by
  induction l₁ with
  | nil => simp [List.takeWhile_cons, hb]
  | cons x xs ih =>
    rw [List.cons_append, List.takeWhile_cons,
      if_pos (hall x (List.mem_cons_self x xs)),
      ih (fun y hy => hall y (List.mem_cons_of_mem x hy))]

/-- The SDK's `deepCompare` on optional focus descriptors coincides with
structural equality. -/
theorem deepCompareFocus_iff (a b : Option LivekitFocus) :
    deepCompareFocus a b = true ↔ a = b := by
  cases a with
  | none => cases b <;> simp [deepCompareFocus]
  | some fa =>
    cases b with
    | none => simp [deepCompareFocus]
    | some fb =>
      cases fa
      cases fb
      simp [deepCompareFocus, LivekitFocus.deepEq, Bool.and_eq_true,
        beq_iff_eq, LivekitFocus.mk.injEq, and_assoc]

/-- `randomString` produces exactly the requested number of characters. -/
theorem randomString_length (rand : Nat → Char) (n : Nat) :
    (randomString rand n).length = n := by
  simp [randomString]

/-! ## Claim theorems -/

/-- C1: whenever app-level encryption is enabled, the room is marked
encrypted, and no E2EE shared key has resolved, `GroupCallView` renders the
fatal "no E2EE key provided" error screen, regardless of the join state,
the left state, the preload flag, and every other input. -/
theorem groupCallView_noE2EEKey_priority (s : GroupCallViewState)
    (he : s.e2eeEnabled = true) (hr : s.isRoomE2EE = true)
    (hk : s.e2eeSharedKey = none) :
    GroupCallView.render s = GroupCallRender.errorNoE2EEKey := by
  simp [GroupCallView.render, he, hr, hk]

/-- Witness for C1: a state that is joined, left, and preloading at once
still renders the "no E2EE key" screen. -/
theorem groupCallView_noE2EEKey_priority_witness :
    GroupCallView.render
      { e2eeEnabled := true, isRoomE2EE := true, e2eeSharedKey := none,
        isE2EESupported := false, isJoined := true, left := true,
        leaveError := none, preload := true, isPasswordlessUser := false,
        posthogEnabled := true, widgetPresent := true }
      = GroupCallRender.errorNoE2EEKey :=
  groupCallView_noE2EEKey_priority _ rfl rfl rfl

/-- C3: on leaving a call in embedded (widget) mode, the effects happen in
this order — the left state is set with any leave error recorded, the
call-ended analytics event is tracked (instantly, with the membership count
at leave time), the RTC session is left, a 10 ms delay elapses, the
always-on-screen signal is cleared, analytics is logged out, and the hangup
action is sent to the host — followed only by the conditional home
navigation. -/
theorem onLeave_embedded_effect_order (env : OnLeaveEnv)
    (err : Option JSError) (hw : env.widgetPresent = true) :
    GroupCallView.onLeave env err =
      [LeaveEffect.setLeaveError err, LeaveEffect.setLeft true,
       LeaveEffect.trackCallEnded env.roomId env.membershipCount true,
       LeaveEffect.leaveRTCSession, LeaveEffect.delayMs 10,
       LeaveEffect.setAlwaysOnScreen false, LeaveEffect.analyticsLogout,
       LeaveEffect.sendHangup]
      ++ (if !env.isPasswordlessUser && !env.confineToRoom && !env.posthogEnabled
          then [LeaveEffect.historyPush "/".toList] else []) := by
  simp [GroupCallView.onLeave, hw]

/-- Witness for C3: a concrete embedded leave emits exactly the claimed
sequence. -/
theorem onLeave_embedded_effect_order_witness :
    GroupCallView.onLeave
      { roomId := "!r:example.com".toList, membershipCount := 2,
        widgetPresent := true, isPasswordlessUser := false,
        confineToRoom := true, posthogEnabled := false } none =
      [LeaveEffect.setLeaveError none, LeaveEffect.setLeft true,
       LeaveEffect.trackCallEnded "!r:example.com".toList 2 true,
       LeaveEffect.leaveRTCSession, LeaveEffect.delayMs 10,
       LeaveEffect.setAlwaysOnScreen false, LeaveEffect.analyticsLogout,
       LeaveEffect.sendHangup]
      ++ (if !false && !true && !false
          then [LeaveEffect.historyPush "/".toList] else []) :=
  onLeave_embedded_effect_order _ none rfl

/-- A concrete embedded-mode leave environment: widget present, registered
user, not confined, analytics off. -/
def onLeaveEnvEmbedded : OnLeaveEnv :=
  { roomId := "!r:example.com".toList, membershipCount := 1,
    widgetPresent := true, isPasswordlessUser := false,
    confineToRoom := false, posthogEnabled := false }

/-- C9 counterexample: in embedded mode (so the claim's "not embedded"
condition fails) with a registered user, no room confinement and analytics
off, `onLeave` still navigates home — the claim's "exactly when the app is
not embedded …" is false on the code, which tests the passwordless-user
flag instead of the embedded flag. -/
theorem onLeave_home_nav_counterexample :
    onLeaveEnvEmbedded.widgetPresent = true
    ∧ LeaveEffect.historyPush "/".toList
        ∈ GroupCallView.onLeave onLeaveEnvEmbedded none := by
  constructor
  · rfl
  · decide

/-- C9 (amended): after leaving, `onLeave` navigates home exactly when the
user is not a passwordless (guest) user, the app is not confined to a
single room, and analytics is not active — the embedded state plays no role
in this condition. -/
theorem onLeave_home_nav_iff (env : OnLeaveEnv) (err : Option JSError) :
    LeaveEffect.historyPush "/".toList ∈ GroupCallView.onLeave env err
    ↔ (env.isPasswordlessUser = false ∧ env.confineToRoom = false
        ∧ env.posthogEnabled = false) := by
  cases hp : env.isPasswordlessUser <;> cases hc : env.confineToRoom <;>
    cases hpo : env.posthogEnabled <;> cases hw : env.widgetPresent <;>
    simp [GroupCallView.onLeave, hp, hc, hpo, hw]

/-- C4: `getUrlParams` resolves `e2eEnabled` to `false` exactly when the
`enableE2e` parameter (fragment-embedded query preferred, plain query as
fallback) is present with the literal value `false`; it is `true` when the
parameter is absent or carries any other value. -/
theorem getUrlParams_e2eEnabled_iff (search hash : JSStr) :
    (getUrlParams search hash).e2eEnabled = false
    ↔ (ParamParser.make search hash).getParam "enableE2e".toList
        = some "false".toList := by
  show ((ParamParser.make search hash).getParam "enableE2e".toList
    != some "false".toList) = false ↔ _
  cases (ParamParser.make search hash).getParam "enableE2e".toList with
  | none => simp
  | some v => by_cases hv : v = "false".toList <;> simp [hv, bne]

/-- C7: on a memberships-changed notification the active-focus hook leaves
the published value untouched when the recomputed focus (the first
advertised focus of the oldest membership) is deep-structurally identical
to the current one, and publishes the recomputed focus only when it
differs. -/
theorem useActiveFocus_no_redundant_update (cur : Option LivekitFocus)
    (s : RTCSessionSnapshot) :
    (getActiveFocus s = cur → onMembershipsChanged cur s = (cur, false))
    ∧ (getActiveFocus s ≠ cur → onMembershipsChanged cur s = (getActiveFocus s, true)) := by
  constructor
  · intro h
    have hc : deepCompareFocus cur (getActiveFocus s) = true :=
      (deepCompareFocus_iff _ _).mpr h.symm
    simp [onMembershipsChanged, hc]
  · intro h
    have hc : deepCompareFocus cur (getActiveFocus s) = false := by
      rw [← Bool.not_eq_true, deepCompareFocus_iff]
      exact fun hh => h hh.symm
    simp [onMembershipsChanged, hc]

/-- Witness for C7: with an unchanged focus no update is published, and
with a changed focus the new value is published. -/
theorem useActiveFocus_no_redundant_update_witness :
    onMembershipsChanged none { oldestMembership := none } = (none, false)
    ∧ onMembershipsChanged none
        { oldestMembership := some
            { sender := "@a:b".toList, deviceId := "D".toList,
              activeFoci := [{ focusType := "livekit".toList,
                               livekitServiceUrl := "https://sfu".toList,
                               livekitAlias := "!r".toList }] } }
      = (some { focusType := "livekit".toList,
                livekitServiceUrl := "https://sfu".toList,
                livekitAlias := "!r".toList }, true) :=
  ⟨(useActiveFocus_no_redundant_update none _).1 rfl,
   (useActiveFocus_no_redundant_update none _).2 (by decide)⟩

/-- Recognizer for room-creation events. -/
def LoadEvent.isCreate : LoadEvent → Bool
  | .createRoomCalled _ => true
  | _ => false

/-- C2: when the join attempt fails with a qualifying not-found error and
the identifier is locally addressable, one run of the load effect issues
exactly one room-creation call, and — when end-to-end encryption is
enabled — writes a freshly generated 32-character shared key to the
per-room local-storage key at a trace position strictly before the loaded
state is reported. -/
theorem loadEffect_creates_once_and_writes_key
    (nameOf keyOf : JSStr → JSStr) (env : LoadEnv) (roomIdOrAlias : JSStr)
    (e : JoinError) (hj : env.joinOutcome = JoinOutcome.failure e)
    (hq : qualifiesForCreate env.isLocalRoomId e = true) :
    ((loadEffectTrace nameOf keyOf env roomIdOrAlias).filter
        LoadEvent.isCreate).length = 1
    ∧ (env.e2eeEnabled = true →
        ∃ (i j : Nat) (key : JSStr), i < j ∧ key.length = 32
          ∧ (loadEffectTrace nameOf keyOf env roomIdOrAlias)[i]?
              = some (LoadEvent.localStorageWrite (keyOf env.createdRoomId) key)
          ∧ (loadEffectTrace nameOf keyOf env roomIdOrAlias)[j]?
              = some (LoadEvent.reportLoaded env.createdRoomId)) := by
  cases henc : env.e2eeEnabled with
  | false =>
    refine ⟨?_, by simp [henc]⟩
    simp [loadEffectTrace, fetchOrCreateRoom, hj, hq, henc, LoadEvent.isCreate]
  | true =>
    refine ⟨?_, ?_⟩
    · simp [loadEffectTrace, fetchOrCreateRoom, hj, hq, henc, LoadEvent.isCreate]
    · intro _
      refine ⟨2, 4, randomString env.rand 32, by omega,
        randomString_length env.rand 32, ?_, ?_⟩ <;>
        simp [loadEffectTrace, fetchOrCreateRoom, hj, hq, henc]

/-- A concrete environment for the C2 witness: qualifying not-found
failure on a locally addressable alias, with encryption enabled. -/
def loadEnvCreateE2EE : LoadEnv :=
  { joinOutcome := JoinOutcome.failure
      { errcode := some "M_NOT_FOUND".toList, message := none },
    isLocalRoomId := true, e2eeEnabled := true,
    createdRoomId := "!new:example.com".toList, rand := fun _ => 'k' }

/-- Witness for C2 at a concrete environment. -/
theorem loadEffect_creates_once_and_writes_key_witness :
    ((loadEffectTrace (fun x => x) (fun x => x) loadEnvCreateE2EE
        "#a:example.com".toList).filter LoadEvent.isCreate).length = 1
    ∧ (loadEnvCreateE2EE.e2eeEnabled = true →
        ∃ (i j : Nat) (key : JSStr), i < j ∧ key.length = 32
          ∧ (loadEffectTrace (fun x => x) (fun x => x) loadEnvCreateE2EE
              "#a:example.com".toList)[i]?
              = some (LoadEvent.localStorageWrite
                  ((fun x => x) loadEnvCreateE2EE.createdRoomId) key)
          ∧ (loadEffectTrace (fun x => x) (fun x => x) loadEnvCreateE2EE
              "#a:example.com".toList)[j]?
              = some (LoadEvent.reportLoaded loadEnvCreateE2EE.createdRoomId)) :=
  loadEffect_creates_once_and_writes_key (fun x => x) (fun x => x)
    loadEnvCreateE2EE "#a:example.com".toList
    { errcode := some "M_NOT_FOUND".toList, message := none } rfl (by decide)

/-- A load environment whose join succeeds. -/
def loadEnvJoinOk : LoadEnv :=
  { joinOutcome := JoinOutcome.success "!r:example.com".toList,
    isLocalRoomId := false, e2eeEnabled := false, createdRoomId := [],
    rand := fun _ => ' ' }

/-- A load environment whose join fails with a non-qualifying error. -/
def loadEnvJoinFail : LoadEnv :=
  { joinOutcome := JoinOutcome.failure
      { errcode := some "M_LIMIT_EXCEEDED".toList, message := none },
    isLocalRoomId := false, e2eeEnabled := false, createdRoomId := [],
    rand := fun _ => ' ' }

/-- C6 counterexample: the hook's status does transition out of `loaded`
within its lifetime — after a successful first effect run the status is
`loaded`, and a dependency change re-running the effect with a failing
environment moves it to `failed` without any fresh mount. -/
theorem useLoadGroupCall_status_leaves_loaded :
    useLoadGroupCallStatus (fun x => x) (fun x => x)
      [("#a:example.com".toList, loadEnvJoinOk)]
      = GroupCallStatus.loaded "!r:example.com".toList
    ∧ useLoadGroupCallStatus (fun x => x) (fun x => x)
        [("#a:example.com".toList, loadEnvJoinOk),
         ("#b:example.com".toList, loadEnvJoinFail)]
      = GroupCallStatus.failed
          { errcode := some "M_LIMIT_EXCEEDED".toList, message := none } :=
  ⟨rfl, rfl⟩

/-- C6 (amended): the status is always exactly one of loading, loaded or
failed; it starts at `loading` on mount; every completed run of the load
effect (the initial run, or a re-run after the client, identifier,
via-server list, PTT flag or encryption setting changed) overwrites the
status with that run's terminal result, which is never `loading`; so the
status stays terminal between runs, but a re-run may replace a `loaded`
status by `failed` or vice versa — only a fresh mount restarts at
`loading`. -/
theorem useLoadGroupCall_status_machine (nameOf keyOf : JSStr → JSStr) :
    useLoadGroupCallStatus nameOf keyOf [] = GroupCallStatus.loading
    ∧ (∀ runs run, useLoadGroupCallStatus nameOf keyOf (runs ++ [run])
        = loadEffectResult nameOf keyOf run.2 run.1)
    ∧ (∀ env r, loadEffectResult nameOf keyOf env r ≠ GroupCallStatus.loading) := by
  refine ⟨rfl, ?_, ?_⟩
  · intro runs run
    simp [useLoadGroupCallStatus, List.foldl_append]
  · intro env r
    unfold loadEffectResult
    cases h : (fetchOrCreateRoom nameOf keyOf env r).2 <;> simp

/-- C5: when the hash is empty or is itself used as a query string, the
resolved room alias is the last `/`-separated path segment, normalized to
exactly one leading `#` (collapsing a leading run of `#`), with `:` plus
the configured default server name appended exactly when the candidate
contains no `:`. -/
theorem roomIdentifier_alias_resolution (dsn pathname search hash : JSStr)
    (h : hash = [] ∨ jsStartsWith hash "#?".toList = true) :
    ∃ cand, (splitOnChar '/' pathname).getLast? = some cand
      ∧ (getRoomIdentifierFromUrl dsn pathname search hash).roomAlias =
          some (if ':' ∈ cand
            then '#' :: cand.dropWhile (fun c => c = '#')
            else ('#' :: cand.dropWhile (fun c => c = '#')) ++ ':' :: dsn) := by
  have hne := splitOnChar_ne_nil '/' pathname
  have hlast := List.getLast?_eq_getLast_of_ne_nil hne
  refine ⟨(splitOnChar '/' pathname).getLast hne, hlast, ?_⟩
  simp only [getRoomIdentifierFromUrl, if_pos h, hlast]
  by_cases hm : ':' ∈ (splitOnChar '/' pathname).getLast hne
  · rw [if_pos ((jsIncludes_singleton ':' _).mpr
      ((mem_normalized_alias _).mpr hm)), if_pos hm]
  · rw [if_neg (fun hh => hm ((mem_normalized_alias _).mp
      ((jsIncludes_singleton ':' _).mp hh))), if_neg hm]

/-- Witness for C5: path `/#foo` resolves to `#foo:example.com` under
default server name `example.com`, and `/#foo:example.org` resolves to
exactly `#foo:example.org`. -/
theorem roomIdentifier_alias_resolution_witness :
    (getRoomIdentifierFromUrl "example.com".toList "/#foo".toList [] []).roomAlias
      = some "#foo:example.com".toList
    ∧ (getRoomIdentifierFromUrl "example.com".toList "/#foo:example.org".toList
        [] []).roomAlias = some "#foo:example.org".toList := by
  obtain ⟨c1, hc1, he1⟩ := roomIdentifier_alias_resolution "example.com".toList
    "/#foo".toList [] [] (Or.inl rfl)
  obtain ⟨c2, hc2, he2⟩ := roomIdentifier_alias_resolution "example.com".toList
    "/#foo:example.org".toList [] [] (Or.inl rfl)
  have h1 : c1 = "#foo".toList := by
    have := hc1.symm.trans (show (splitOnChar '/' "/#foo".toList).getLast?
      = some "#foo".toList by decide)
    exact Option.some.inj this
  have h2 : c2 = "#foo:example.org".toList := by
    have := hc2.symm.trans
      (show (splitOnChar '/' "/#foo:example.org".toList).getLast?
        = some "#foo:example.org".toList by decide)
    exact Option.some.inj this
  subst h1 h2
  exact ⟨he1.trans (by decide), he2.trans (by decide)⟩

/-- C10: for every input, the resolved room alias is present and starts
with `#`; in particular an empty path yields `#` plus `:` plus the default
server name. -/
theorem roomIdentifier_alias_always_resolves (dsn pathname search hash : JSStr) :
    (∃ a, (getRoomIdentifierFromUrl dsn pathname search hash).roomAlias = some a
       ∧ a.head? = some '#')
    ∧ (getRoomIdentifierFromUrl dsn [] [] []).roomAlias
        = some ('#' :: ':' :: dsn) := by
  constructor
  · by_cases hb : hash = [] ∨ jsStartsWith hash "#?".toList = true
    · have hne := splitOnChar_ne_nil '/' pathname
      have hlast := List.getLast?_eq_getLast_of_ne_nil hne
      simp only [getRoomIdentifierFromUrl, if_pos hb, hlast]
      by_cases hinc : jsIncludes
          ('#' :: ((splitOnChar '/' pathname).getLast hne).dropWhile
            (fun c => c = '#')) [':'] = true
      · exact ⟨'#' :: ((splitOnChar '/' pathname).getLast hne).dropWhile
            (fun c => c = '#'), by rw [if_pos hinc], rfl⟩
      · exact ⟨('#' :: ((splitOnChar '/' pathname).getLast hne).dropWhile
            (fun c => c = '#')) ++ ':' :: dsn, by rw [if_neg hinc], by simp⟩
    · simp only [getRoomIdentifierFromUrl, if_neg hb]
      by_cases hinc : jsIncludes
          ('#' :: hash.dropWhile (fun c => c = '#')) [':'] = true
      · exact ⟨'#' :: hash.dropWhile (fun c => c = '#'),
          by rw [if_pos hinc], rfl⟩
      · exact ⟨('#' :: hash.dropWhile (fun c => c = '#')) ++ ':' :: dsn,
          by rw [if_neg hinc], by simp⟩
  · rfl

/-- C8 counterexample: on a hash with no `?` at all, `editFragmentQuery`
with the identity edit returns just `?` — JS `substring(0, -1)` is empty —
so the original hash's prefix (here `abc`) is dropped, contradicting the
claim that the portion before the `?` is preserved. -/
theorem editFragmentQuery_counterexample :
    editFragmentQuery "abc".toList (fun p => p) = "?".toList
    ∧ "?".toList ≠ "abc".toList.takeWhile (fun c => c ≠ '?')
        ++ '?' :: ((fun p : URLSearchParams => p)
            (URLSearchParams.parse [])).serialize := by
  constructor
  · rfl
  · decide

/-- C8 (amended): when the hash contains a `?`, `editFragmentQuery` returns
the hash's prefix before its first `?`, then `?`, then the re-serialized
edited parameters of the hash's embedded query — in particular the portion
of the result before its first `?` equals that of the input. When the hash
contains no `?`, the prefix is dropped: the result is `?` followed by the
re-serialized edit of the empty parameter set. -/
theorem editFragmentQuery_spec (hash : JSStr)
    (edit : URLSearchParams → URLSearchParams) :
    ('?' ∈ hash →
      editFragmentQuery hash edit
        = hash.takeWhile (fun c => c ≠ '?') ++ '?' ::
            (edit (URLSearchParams.parse
              (hash.dropWhile (fun c => c ≠ '?')))).serialize
      ∧ (editFragmentQuery hash edit).takeWhile (fun c => c ≠ '?')
          = hash.takeWhile (fun c => c ≠ '?'))
    ∧ ('?' ∉ hash →
      editFragmentQuery hash edit
        = '?' :: (edit (URLSearchParams.parse [])).serialize) := by
  constructor
  · intro h
    cases hidx : jsIndexOfAux '?' hash with
    | none => exact absurd h ((jsIndexOfAux_eq_none '?' hash).mp hidx)
    | some i =>
      obtain ⟨hle, htake, hdrop⟩ := jsIndexOfAux_eq_some '?' hash i hidx
      have hmain : editFragmentQuery hash edit
          = hash.takeWhile (fun c => c ≠ '?') ++ '?' ::
              (edit (URLSearchParams.parse
                (hash.dropWhile (fun c => c ≠ '?')))).serialize := by
        simp only [editFragmentQuery, jsIndexOf, hidx]
        rw [if_neg (by omega : ¬((i : Int) = -1)),
          jsSubstringFrom_of_le hash i hle, jsSubstring_zero_of_le hash i hle,
          htake, hdrop]
      refine ⟨hmain, ?_⟩
      rw [hmain, takeWhile_keepers_append _ _ _ _
        (fun x hx => List.mem_takeWhile_imp hx) (by decide)]
  · intro h
    have hidx : jsIndexOfAux '?' hash = none :=
      (jsIndexOfAux_eq_none '?' hash).mpr h
    simp only [editFragmentQuery, jsIndexOf, hidx, if_true]
    rw [jsSubstring_zero_negOne, List.nil_append]

/-- Witness for C8: on the hash `#?a=b` (which contains a `?`) the prefix
`#` is preserved and the re-serialized identity edit follows. -/
theorem editFragmentQuery_spec_witness :
    editFragmentQuery "#?a=b".toList (fun p => p)
      = "#?a=b".toList.takeWhile (fun c => c ≠ '?') ++ '?' ::
          ((fun p : URLSearchParams => p) (URLSearchParams.parse
            ("#?a=b".toList.dropWhile (fun c => c ≠ '?')))).serialize
    ∧ (editFragmentQuery "#?a=b".toList (fun p => p)).takeWhile
        (fun c => c ≠ '?')
      = "#?a=b".toList.takeWhile (fun c => c ≠ '?') :=
  (editFragmentQuery_spec "#?a=b".toList (fun p => p)).1 (by decide)

/-- Witness for C4: `enableE2e=false` in the fragment query yields
`e2eEnabled = false`. -/
theorem getUrlParams_e2eEnabled_iff_witness :
    (getUrlParams [] "#?enableE2e=false".toList).e2eEnabled = false :=
  (getUrlParams_e2eEnabled_iff [] "#?enableE2e=false".toList).mpr (by decide)

/-- Witness for C6 (amended): a freshly mounted hook reports `loading`. -/
theorem useLoadGroupCall_status_machine_witness :
    useLoadGroupCallStatus (fun x => x) (fun x => x) [] = GroupCallStatus.loading :=
  (useLoadGroupCall_status_machine (fun x => x) (fun x => x)).1

/-- Witness for C9 (amended): a non-embedded, registered, unconfined,
analytics-off leave navigates home. -/
theorem onLeave_home_nav_iff_witness :
    LeaveEffect.historyPush "/".toList ∈ GroupCallView.onLeave
      { roomId := [], membershipCount := 0, widgetPresent := false,
        isPasswordlessUser := false, confineToRoom := false,
        posthogEnabled := false } none :=
  (onLeave_home_nav_iff _ none).mpr ⟨rfl, rfl, rfl⟩

/-- Witness for C10: the empty path resolves to `#:example.com`. -/
theorem roomIdentifier_alias_always_resolves_witness :
    (getRoomIdentifierFromUrl "example.com".toList [] [] []).roomAlias
      = some ('#' :: ':' :: "example.com".toList) :=
  (roomIdentifier_alias_always_resolves "example.com".toList [] [] []).2
